import Mathlib

set_option maxRecDepth 1000000

/-!
Verification development for the `pkg/verifier` package of the
provably-fair backgammon verifier.  The Go source is embedded
shallowly: bytes are `Nat` (values < 256 in all reachable states),
Go strings are byte lists (`List Nat`), 32-bit words are `Nat`
reduced modulo `2 ^ 32` where overflow matters, and the unbounded
rejection loop of `drawDie` is given an explicit fuel parameter
(the Go loop has no bound; `none` models fuel exhaustion).
-/

namespace Backgammon

/-- Mask to 32 bits, the width of Go's `uint32` words. -/
def m32 (x : Nat) : Nat := x % 4294967296

/-- Right rotation of a 32-bit word by `n` places. -/
def rotr (n x : Nat) : Nat := m32 ((x >>> n) + (x <<< (32 - n)))

/-- SHA-256 small sigma 0. -/
def ssig0 (x : Nat) : Nat := (rotr 7 x) ^^^ (rotr 18 x) ^^^ (x >>> 3)

/-- SHA-256 small sigma 1. -/
def ssig1 (x : Nat) : Nat := (rotr 17 x) ^^^ (rotr 19 x) ^^^ (x >>> 10)

/-- SHA-256 big sigma 0. -/
def bsig0 (x : Nat) : Nat := (rotr 2 x) ^^^ (rotr 13 x) ^^^ (rotr 22 x)

/-- SHA-256 big sigma 1. -/
def bsig1 (x : Nat) : Nat := (rotr 6 x) ^^^ (rotr 11 x) ^^^ (rotr 25 x)

/-- SHA-256 choice function. -/
def chFn (e f g : Nat) : Nat := (e &&& f) ^^^ ((4294967295 - m32 e) &&& g)

/-- SHA-256 majority function. -/
def majFn (a b c : Nat) : Nat := (a &&& b) ^^^ (a &&& c) ^^^ (b &&& c)

/-- The 64 SHA-256 round constants (FIPS 180-4, in decimal). -/
def sha256K : List Nat :=
  [1116352408, 1899447441, 3049323471, 3921009573, 961987163,
   1508970993, 2453635748, 2870763221, 3624381080, 310598401,
   607225278, 1426881987, 1925078388, 2162078206, 2614888103,
   3248222580, 3835390401, 4022224774, 264347078, 604807628,
   770255983, 1249150122, 1555081692, 1996064986, 2554220882,
   2821834349, 2952996808, 3210313671, 3336571891, 3584528711,
   113926993, 338241895, 666307205, 773529912, 1294757372,
   1396182291, 1695183700, 1986661051, 2177026350, 2456956037,
   2730485921, 2820302411, 3259730800, 3345764771, 3516065817,
   3600352804, 4094571909, 275423344, 430227734, 506948616,
   659060556, 883997877, 958139571, 1322822218, 1537002063,
   1747873779, 1955562222, 2024104815, 2227730452, 2361852424,
   2428436474, 2756734187, 3204031479, 3329325298]

/-- The SHA-256 initial hash state (FIPS 180-4, in decimal). -/
def sha256H0 : List Nat :=
  [1779033703, 3144134277, 1013904242, 2773480762, 1359893119,
   2600822924, 528734635, 1541459225]

/-- Big-endian 8-byte encoding (used for the SHA-256 length field). -/
def be64 (n : Nat) : List Nat :=
  [(n >>> 56) % 256, (n >>> 48) % 256, (n >>> 40) % 256, (n >>> 32) % 256,
   (n >>> 24) % 256, (n >>> 16) % 256, (n >>> 8) % 256, n % 256]

/-- Big-endian 4-byte encoding, as Go's `binary.BigEndian.PutUint32`. -/
def be32 (n : Nat) : List Nat :=
  [(n >>> 24) % 256, (n >>> 16) % 256, (n >>> 8) % 256, n % 256]

/-- SHA-256 padding: append `0x80`, zeros to 56 mod 64, then the bit length. -/
def sha256Pad (msg : List Nat) : List Nat :=
  msg ++ 0x80 :: List.replicate ((119 - msg.length % 64) % 64) 0 ++ be64 (msg.length * 8)

/-- Split a byte list into 64-byte chunks (`fuel` bounds the recursion). -/
def chunk64 : Nat → List Nat → List (List Nat)
  | 0, _ => []
  | _, [] => []
  | fuel + 1, l => l.take 64 :: chunk64 fuel (l.drop 64)

/-- Combine bytes into big-endian 32-bit words. -/
def bytesToWords : List Nat → List Nat
  | a :: b :: c :: d :: rest => ((a <<< 24) + (b <<< 16) + (c <<< 8) + d) :: bytesToWords rest
  | _ => []

/-- One step of the SHA-256 message-schedule extension. -/
def schedWord (w : List Nat) : Nat :=
  m32 (ssig1 (w.getD (w.length - 2) 0) + w.getD (w.length - 7) 0 +
       ssig0 (w.getD (w.length - 15) 0) + w.getD (w.length - 16) 0)

/-- Extend the 16 message words by `k` further schedule words. -/
def extendW : Nat → List Nat → List Nat
  | 0, w => w
  | k + 1, w => extendW k (w ++ [schedWord w])

/-- One SHA-256 compression round on the 8-word working state. -/
def sha256Round (st : List Nat) (wi ki : Nat) : List Nat :=
  let a := st.getD 0 0
  let b := st.getD 1 0
  let c := st.getD 2 0
  let d := st.getD 3 0
  let e := st.getD 4 0
  let f := st.getD 5 0
  let g := st.getD 6 0
  let h := st.getD 7 0
  let t1 := m32 (h + bsig1 e + chFn e f g + ki + wi)
  let t2 := m32 (bsig0 a + majFn a b c)
  [m32 (t1 + t2), a, b, c, m32 (d + t1), e, f, g]

/-- Run the 64 compression rounds over schedule words and constants. -/
def sha256Rounds : List Nat → List Nat → List Nat → List Nat
  | _, [], st => st
  | [], _, st => st
  | wi :: ws, ki :: ks, st => sha256Rounds ws ks (sha256Round st wi ki)

/-- Compress one 64-byte block into the running hash state. -/
def sha256Block (h : List Nat) (block : List Nat) : List Nat :=
  let w := extendW 48 (bytesToWords block)
  let st := sha256Rounds w sha256K h
  List.zipWith (fun x y => m32 (x + y)) h st

/-- Split a 32-bit word into its four big-endian bytes. -/
def wordBytes (w : Nat) : List Nat :=
  [(w >>> 24) % 256, (w >>> 16) % 256, (w >>> 8) % 256, w % 256]

/-- Concatenate the byte expansions of a word list. -/
def wordsToBytes : List Nat → List Nat
  | [] => []
  | w :: ws => wordBytes w ++ wordsToBytes ws

/-- Full SHA-256: bytes in, 32 digest bytes out. -/
def sha256 (msg : List Nat) : List Nat :=
  let padded := sha256Pad msg
  wordsToBytes ((chunk64 padded.length padded).foldl sha256Block sha256H0)

/-- HMAC-SHA256 as Go's `crypto/hmac` with a SHA-256 hash: keys longer
than the 64-byte block size are hashed first, then zero-padded. -/
def hmacSha256 (key msg : List Nat) : List Nat :=
  let k0 := if 64 < key.length then sha256 key else key
  let kp := k0 ++ List.replicate (64 - k0.length) 0
  sha256 (kp.map (fun b => b ^^^ 0x5c) ++ sha256 (kp.map (fun b => b ^^^ 0x36) ++ msg))

/-- Hex value of one ASCII byte, as Go's `encoding/hex.fromHexChar`
(accepts `0-9`, `a-f`, `A-F`). -/
def hexVal (c : Nat) : Option Nat :=
  if 48 ≤ c ∧ c ≤ 57 then some (c - 48)
  else if 97 ≤ c ∧ c ≤ 102 then some (c - 87)
  else if 65 ≤ c ∧ c ≤ 70 then some (c - 55)
  else none

/-- Go's `hex.DecodeString` on a byte string: every error (odd length or
an invalid character) is collapsed to `none`, which is all `decodeHex`
in the verifier observes. -/
def decodeHex : List Nat → Option (List Nat)
  | [] => some []
  | [_] => none
  | a :: b :: rest =>
    match hexVal a, hexVal b, decodeHex rest with
    | some x, some y, some r => some ((x * 16 + y) :: r)
    | _, _, _ => none

/-- Lowercase hex digit for a nibble, as Go's `encoding/hex` table. -/
def hexDigit (n : Nat) : Nat := if n < 10 then 48 + n else 87 + n

/-- Go's `hex.EncodeToString` on digest bytes. -/
def bytesToHex : List Nat → List Nat
  | [] => []
  | b :: rest => hexDigit (b >>> 4) :: hexDigit (b &&& 15) :: bytesToHex rest

/-- `sha256Hex` from the source: hex encoding of the SHA-256 digest. -/
def sha256Hex (b : List Nat) : List Nat := bytesToHex (sha256 b)

/-- Go's lexicographic byte-string comparison `s < t`. -/
def bytesLt : List Nat → List Nat → Bool
  | [], [] => false
  | [], _ :: _ => true
  | _ :: _, [] => false
  | a :: as, b :: bs => if a < b then true else if b < a then false else bytesLt as bs

/-- Decimal digits (ASCII, most significant first) of a natural number;
`fuel` bounds the recursion and any `fuel > n` is exact. -/
def natToDec : Nat → Nat → List Nat
  | 0, _ => []
  | fuel + 1, n => if n < 10 then [48 + n] else natToDec fuel (n / 10) ++ [48 + n % 10]

/-- Go's `strconv.FormatInt(uid, 10)` as a byte string. -/
def intToDec (i : Int) : List Nat :=
  if i < 0 then 45 :: natToDec ((-i).toNat + 1) (-i).toNat else natToDec (i.toNat + 1) i.toNat

/-- Bytes of an ASCII string (agrees with Go's string bytes on ASCII). -/
def asciiBytes (s : String) : List Nat := s.data.map Char.toNat

/-- `PlayerEntry` from the source; `source` is the provenance tag. -/
structure PlayerEntry where
  uid : Int
  clientSeed : List Nat
  source : List Nat
  deriving DecidableEq

/-- `Report` from the source; all Go string fields are byte strings. -/
structure Report where
  gameID : List Nat
  serverSeed : List Nat
  serverSeedHash : List Nat
  rolls : List Nat
  players : List PlayerEntry
  deriving DecidableEq

/-- The distinct error returns of `Verify` with their payloads: one
constructor per `errors.New` / `fmt.Errorf` site reachable from it. -/
inductive VError where
  | playerCount : VError
  | oddRolls : VError
  | notHex : List Nat → VError
  | hashMismatch : VError
  | rollMismatch : Nat → Nat → Nat → Nat → Nat → VError
  deriving DecidableEq

instance exceptDecEq {ε α : Type} [DecidableEq ε] [DecidableEq α] : DecidableEq (Except ε α) :=
  fun x y =>
    match x, y with
    | .ok a, .ok b =>
      if h : a = b then .isTrue (by rw [h]) else .isFalse (by intro hc; cases hc; exact h rfl)
    | .error a, .error b =>
      if h : a = b then .isTrue (by rw [h]) else .isFalse (by intro hc; cases hc; exact h rfl)
    | .ok _, .error _ => .isFalse (by intro hc; cases hc)
    | .error _, .ok _ => .isFalse (by intro hc; cases hc)

/-- The byte string `"serverSeed"`. -/
def nmServerSeed : List Nat := [115, 101, 114, 118, 101, 114, 83, 101, 101, 100]

/-- The byte string `"clientSeed"`. -/
def nmClientSeed : List Nat := [99, 108, 105, 101, 110, 116, 83, 101, 101, 100]

/-- The pre-hash buffer built by `combinedSeed`: header
`"<leftUID>:<rightUID>:"` chosen by string comparison, then the two
decoded client seeds (swapped when `aUID > bUID` as strings) joined by
a colon.  `none` when either seed fails hex decoding. -/
def combinedSeedMsg (a b : PlayerEntry) : Option (List Nat) :=
  let aU := intToDec a.uid
  let bU := intToDec b.uid
  let header := (if bytesLt aU bU then aU ++ 58 :: bU else bU ++ 58 :: aU) ++ [58]
  let fs := if bytesLt bU aU then (b.clientSeed, a.clientSeed) else (a.clientSeed, b.clientSeed)
  match decodeHex fs.1, decodeHex fs.2 with
  | some ha, some hb => some (header ++ ha ++ 58 :: hb)
  | _, _ => none

/-- `combinedSeed` from the source: SHA-256 of the mixing buffer, or the
`"clientSeed is not valid hex"` error. -/
def combinedSeed (a b : PlayerEntry) : Except VError (List Nat) :=
  match combinedSeedMsg a b with
  | none => .error (.notHex nmClientSeed)
  | some buf => .ok (sha256 buf)

/-- `hmacBlock` from the source: one 32-byte
`HMAC-SHA256(serverSeed, combined || nonce_BE)` block.  `be32` already
truncates the nonce to 32 bits, as the Go `uint32` does. -/
def hmacBlock (key pfx : List Nat) (nonce : Nat) : List Nat :=
  hmacSha256 key (pfx ++ be32 nonce)

/-- `drawDie` from the source, with explicit state (nonce, pool, cursor)
and fuel bounding the iterations of the unbounded Go `for` loop.
Returns the die face and the state after the draw. -/
def drawDie (key pfx : List Nat) : Nat → Nat → List Nat → Nat → Option (Nat × Nat × List Nat × Nat)
  | 0, _, _, _ => none
  | fuel + 1, nonce, pool, idx =>
    if idx < pool.length then
      let v := pool.getD idx 0
      if v < 252 then some (v % 6 + 1, nonce, pool, idx + 1)
      else drawDie key pfx fuel nonce pool (idx + 1)
    else drawDie key pfx fuel (m32 (nonce + 1)) (hmacBlock key pfx nonce) 0

/-- `rollDice` from the source: force a fresh block at the pre-roll
nonce, increment the nonce, then draw two dice; returns the dice and
the nonce after the roll. -/
def rollDice (fuel : Nat) (srv comb : List Nat) (nonce : Nat) : Option (Nat × Nat × Nat) :=
  let pool := hmacBlock srv comb nonce
  match drawDie srv comb fuel (m32 (nonce + 1)) pool 0 with
  | none => none
  | some (d1, n1, pool1, idx1) =>
    match drawDie srv comb fuel n1 pool1 idx1 with
    | none => none
    | some (d2, n2, _, _) => some (d1, d2, n2)

/-- The roll-comparison loop of `Verify` (its `for` over `rep.Rolls` two
bytes at a time); `i` is the character offset and `nonce` the dice
nonce.  A singleton tail cannot occur after the parity check. -/
def rollsLoop (fuel : Nat) (srv comb : List Nat) : List Nat → Nat → Nat → Option (Except VError Unit)
  | [], _, _ => some (.ok ())
  | [_], _, _ => some (.ok ())
  | r1 :: r2 :: rest, i, nonce =>
    match rollDice fuel srv comb nonce with
    | none => none
    | some (d1, d2, nonce') =>
      if d1 + 48 ≠ r1 ∨ d2 + 48 ≠ r2 then
        some (.error (.rollMismatch i d1 d2 ((r1 + 208) % 256) ((r2 + 208) % 256)))
      else rollsLoop fuel srv comb rest (i + 2) nonce'

/-- `Verify` from the source, with `fuel` bounding each die draw's
rejection loop (`none` = that loop still running after `fuel` steps). -/
def Verify (fuel : Nat) (rep : Report) : Option (Except VError Unit) :=
  match rep.players with
  | [p0, p1] =>
    if rep.rolls.length % 2 ≠ 0 then some (.error .oddRolls)
    else
      match decodeHex rep.serverSeed with
      | none => some (.error (.notHex nmServerSeed))
      | some srv =>
        if sha256Hex srv ≠ rep.serverSeedHash then some (.error .hashMismatch)
        else
          match combinedSeed p0 p1 with
          | .error e => some (.error e)
          | .ok comb => rollsLoop fuel srv comb rep.rolls 0 0
  | _ => some (.error .playerCount)

/-- Decimal value of an ASCII digit string (most significant first);
used to invert `natToDec`. -/
def decVal (l : List Nat) : Nat := l.foldl (fun acc d => acc * 10 + (d - 48)) 0

/-- Mixing buffer in a fixed left/right presentation: header
`"<lU>:<rU>:"` then the decoded left seed, a colon, the decoded right
seed.  Used to state how `combinedSeedMsg` orders its parts. -/
def mixMsg (lU rU lcs rcs : List Nat) : Option (List Nat) :=
  match decodeHex lcs, decodeHex rcs with
  | some hl, some hr => some (((lU ++ 58 :: rU) ++ [58]) ++ hl ++ 58 :: hr)
  | _, _ => none

/-- Modelled from the spec (§4.3 Seed Mixer, step 4): the mixing buffer
with the header ordered by lexicographic string comparison but the
seed-byte swap decided by numeric UID comparison, as the spec words it.
Identical to `combinedSeedMsg` except for the swap condition. -/
def combinedSeedSpecMsg (a b : PlayerEntry) : Option (List Nat) :=
  let aU := intToDec a.uid
  let bU := intToDec b.uid
  let header := (if bytesLt aU bU then aU ++ 58 :: bU else bU ++ 58 :: aU) ++ [58]
  let fs := if b.uid < a.uid then (b.clientSeed, a.clientSeed) else (a.clientSeed, b.clientSeed)
  match decodeHex fs.1, decodeHex fs.2 with
  | some ha, some hb => some (header ++ ha ++ 58 :: hb)
  | _, _ => none

/-- Modelled from the spec: `combinedSeed` over `combinedSeedSpecMsg`. -/
def combinedSeedSpec (a b : PlayerEntry) : Except VError (List Nat) :=
  match combinedSeedSpecMsg a b with
  | none => .error (.notHex nmClientSeed)
  | some buf => .ok (sha256 buf)

/-- The reported roll string as (first, second) byte pairs. -/
def pairUp : List Nat → List (Nat × Nat)
  | r1 :: r2 :: rest => (r1, r2) :: pairUp rest
  | _ => []

/-- The regenerated roll sequence: `count` calls of `rollDice` threading
the nonce, starting at `nonce`. -/
def genPairs (fuel : Nat) (srv comb : List Nat) : Nat → Nat → Option (List (Nat × Nat))
  | 0, _ => some []
  | k + 1, nonce =>
    match rollDice fuel srv comb nonce with
    | none => none
    | some (d1, d2, n') =>
      match genPairs fuel srv comb k n' with
      | none => none
      | some ps => some ((d1, d2) :: ps)

/-- Spec-side walk over generated and reported pairs: the first
differing pair, with its zero-based character offset, the expected
(generated) pair and the actual (reported) pair as the code prints it;
`none` when every reported pair equals the generated one. -/
def specWalk : List (Nat × Nat) → List (Nat × Nat) → Nat → Option (Nat × (Nat × Nat) × (Nat × Nat))
  | (d1, d2) :: ds, (r1, r2) :: rs, i =>
    if d1 + 48 ≠ r1 ∨ d2 + 48 ≠ r2 then
      some (i, (d1, d2), ((r1 + 208) % 256, (r2 + 208) % 256))
    else specWalk ds rs (i + 2)
  | _, _, _ => none

/-- Verification outcome determined by a `specWalk` result. -/
def walkRes : Option (Nat × (Nat × Nat) × (Nat × Nat)) → Except VError Unit
  | none => .ok ()
  | some (i, (d1, d2), (a1, a2)) => .error (.rollMismatch i d1 d2 a1 a2)

/-- A report with every player's provenance tag blanked. -/
def eraseSources (rep : Report) : Report :=
  { rep with players := rep.players.map fun p => { p with source := [] } }

/-- Golden server seed, hex field (16 bytes on the wire). -/
def gSrvHex : List Nat := asciiBytes "000102030405060708090a0b0c0d0e0f"

/-- Golden server seed, decoded. -/
def gSrv : List Nat := [0, 1, 2, 3, 4, 5, 6, 7, 8, 9, 10, 11, 12, 13, 14, 15]

/-- Golden player 0. -/
def gP0 : PlayerEntry := ⟨1, asciiBytes "aabbccddeeff00112233445566778899", asciiBytes "player"⟩

/-- Golden player 1. -/
def gP1 : PlayerEntry := ⟨2, asciiBytes "99887766554433221100ffeeddccbbaa", asciiBytes "fallback"⟩

/-- Combined seed of the golden players (SHA-256 digest of their mix). -/
def gComb : List Nat :=
  [240, 234, 249, 97, 162, 142, 150, 224, 6, 120, 88, 127, 194, 125, 240, 60,
   18, 7, 217, 74, 55, 143, 208, 89, 11, 244, 245, 200, 144, 43, 3, 118]

/-- Golden report: two rolls, consistent with all golden seeds. -/
def gReport : Report :=
  ⟨asciiBytes "g1", gSrvHex,
   asciiBytes "be45cb2605bf36bebde684841a28f0fd43c69850a3dce5fedba69928ee3a8991",
   asciiBytes "1265", [gP0, gP1]⟩

theorem bytesLt_asymm : ∀ a b : List Nat, bytesLt a b = true → bytesLt b a = false
  | [], [] => by simp [bytesLt]
  | [], _ :: _ => by simp [bytesLt]
  | _ :: _, [] => by simp [bytesLt]
  | a :: as, b :: bs => by
    rcases Nat.lt_trichotomy a b with h | h | h
    · simp [bytesLt, h, Nat.lt_asymm h]
    · subst h
      simpa [bytesLt, Nat.lt_irrefl] using bytesLt_asymm as bs
    · simp [bytesLt, h, Nat.lt_asymm h]

theorem bytesLt_antisymm : ∀ a b : List Nat, bytesLt a b = false → bytesLt b a = false → a = b
  | [], [] => by simp
  | [], _ :: _ => by simp [bytesLt]
  | _ :: _, [] => by simp [bytesLt]
  | a :: as, b :: bs => by
    rcases Nat.lt_trichotomy a b with h | h | h
    · simp [bytesLt, h, Nat.lt_asymm h]
    · subst h
      simpa [bytesLt, Nat.lt_irrefl] using bytesLt_antisymm as bs
    · simp [bytesLt, h, Nat.lt_asymm h]

theorem decVal_snoc (xs : List Nat) (d : Nat) :
    decVal (xs ++ [d]) = decVal xs * 10 + (d - 48) := by
  simp [decVal, List.foldl_append]

theorem natToDec_decVal : ∀ fuel n, n < fuel → decVal (natToDec fuel n) = n
  | 0, n => by omega
  | fuel + 1, n => by
    intro hn
    by_cases h : n < 10
    · simp [natToDec, h, decVal]
    · have hdiv : n / 10 < fuel := by
        have : n / 10 < n := Nat.div_lt_self (by omega) (by omega)
        omega
      have ih := natToDec_decVal fuel (n / 10) hdiv
      simp [natToDec, h, decVal_snoc, ih]
      omega

theorem natToDec_head : ∀ fuel n, n < fuel →
    ∃ d t, natToDec fuel n = d :: t ∧ 48 ≤ d ∧ d ≤ 57
  | 0, n => by omega
  | fuel + 1, n => by
    intro hn
    by_cases h : n < 10
    · exact ⟨48 + n, [], by simp [natToDec, h], by omega, by omega⟩
    · have hdiv : n / 10 < fuel := by
        have : n / 10 < n := Nat.div_lt_self (by omega) (by omega)
        omega
      obtain ⟨d, t, he, h1, h2⟩ := natToDec_head fuel (n / 10) hdiv
      exact ⟨d, t ++ [48 + n % 10], by simp [natToDec, h, he], h1, h2⟩

theorem intToDec_inj (i j : Int) (h : intToDec i = intToDec j) : i = j := by
  by_cases hi : i < 0 <;> by_cases hj : j < 0 <;> simp only [intToDec, hi, hj, if_pos, if_neg, if_true, if_false] at h
  · have h' := List.cons.inj h
    have hv := congrArg decVal h'.2
    rw [natToDec_decVal _ _ (Nat.lt_succ_self _), natToDec_decVal _ _ (Nat.lt_succ_self _)] at hv
    omega
  · obtain ⟨d, t, he, h1, _⟩ := natToDec_head (j.toNat + 1) j.toNat (Nat.lt_succ_self _)
    rw [he] at h
    have := (List.cons.inj h).1
    omega
  · obtain ⟨d, t, he, h1, _⟩ := natToDec_head (i.toNat + 1) i.toNat (Nat.lt_succ_self _)
    rw [he] at h
    have := (List.cons.inj h).1
    omega
  · have hv := congrArg decVal h
    rw [natToDec_decVal _ _ (Nat.lt_succ_self _), natToDec_decVal _ _ (Nat.lt_succ_self _)] at hv
    omega

theorem sha256Round_length (st : List Nat) (wi ki : Nat) : (sha256Round st wi ki).length = 8 :=
  rfl

theorem sha256Rounds_length : ∀ ws ks st, List.length st = 8 → (sha256Rounds ws ks st).length = 8
  | [], ks, st => by cases ks <;> simp [sha256Rounds]
  | _ :: _, [], st => by simp [sha256Rounds]
  | wi :: ws, ki :: ks, st => by
    intro h
    simp only [sha256Rounds]
    exact sha256Rounds_length ws ks _ (sha256Round_length st wi ki)

theorem sha256Block_length (h blk : List Nat) (hh : h.length = 8) :
    (sha256Block h blk).length = 8 := by
  simp [sha256Block, hh, sha256Rounds_length _ _ _ hh]

theorem foldl_sha256Block_length :
    ∀ (blocks : List (List Nat)) (h : List Nat), h.length = 8 →
      (blocks.foldl sha256Block h).length = 8
  | [], _ => fun hh => hh
  | b :: bs, h => fun hh =>
    foldl_sha256Block_length bs (sha256Block h b) (sha256Block_length h b hh)

theorem wordsToBytes_length : ∀ ws : List Nat, (wordsToBytes ws).length = 4 * ws.length
  | [] => rfl
  | w :: ws => by
    simp [wordsToBytes, wordBytes, wordsToBytes_length ws]
    ring

theorem sha256_length (msg : List Nat) : (sha256 msg).length = 32 := by
  have h8 := foldl_sha256Block_length (chunk64 (sha256Pad msg).length (sha256Pad msg)) sha256H0 rfl
  simp [sha256, wordsToBytes_length, h8]

theorem hmacBlock_length (key pfx : List Nat) (n : Nat) : (hmacBlock key pfx n).length = 32 := by
  simp [hmacBlock, hmacSha256, sha256_length]

theorem combinedSeedMsg_canonAux (a b : PlayerEntry) :
    combinedSeedMsg a b =
      if bytesLt (intToDec b.uid) (intToDec a.uid) then
        mixMsg (intToDec b.uid) (intToDec a.uid) b.clientSeed a.clientSeed
      else mixMsg (intToDec a.uid) (intToDec b.uid) a.clientSeed b.clientSeed := by
  cases hab : bytesLt (intToDec a.uid) (intToDec b.uid) <;>
    cases hba : bytesLt (intToDec b.uid) (intToDec a.uid)
  · have heq := bytesLt_antisymm _ _ hab hba
    rw [heq] at hab
    simp [combinedSeedMsg, mixMsg, hab, hba, heq]
  · simp [combinedSeedMsg, mixMsg, hab, hba]
  · simp [combinedSeedMsg, mixMsg, hab, hba]
  · rw [bytesLt_asymm _ _ hab] at hba
    cases hba

theorem combinedSeedMsg_symm (a b : PlayerEntry) (h : intToDec a.uid ≠ intToDec b.uid) :
    combinedSeedMsg a b = combinedSeedMsg b a := by
  rw [combinedSeedMsg_canonAux, combinedSeedMsg_canonAux]
  cases hab : bytesLt (intToDec a.uid) (intToDec b.uid) <;>
    cases hba : bytesLt (intToDec b.uid) (intToDec a.uid)
  · exact absurd (bytesLt_antisymm _ _ hab hba) h
  · simp [hab, hba]
  · simp [hab, hba]
  · rw [bytesLt_asymm _ _ hab] at hba
    cases hba

theorem combinedSeed_symm (a b : PlayerEntry) (h : a.uid ≠ b.uid) :
    combinedSeed a b = combinedSeed b a := by
  have hne : intToDec a.uid ≠ intToDec b.uid := fun hc => h (intToDec_inj _ _ hc)
  unfold combinedSeed
  rw [combinedSeedMsg_symm a b hne]

theorem combinedSeedMsg_none_iff (a b : PlayerEntry) :
    combinedSeedMsg a b = none ↔
      (decodeHex a.clientSeed = none ∨ decodeHex b.clientSeed = none) := by
  unfold combinedSeedMsg
  cases h : bytesLt (intToDec b.uid) (intToDec a.uid) <;>
    simp only [h, if_true, if_false, Bool.false_eq_true, Bool.true_eq_false] <;>
    cases decodeHex a.clientSeed <;> cases decodeHex b.clientSeed <;> simp

theorem decodeHex_isSome_iff :
    ∀ s : List Nat, (decodeHex s).isSome ↔ (s.length % 2 = 0 ∧ ∀ c ∈ s, (hexVal c).isSome)
  | [] => by simp [decodeHex]
  | [a] => by simp [decodeHex]
  | a :: b :: rest => by
    have ih := decodeHex_isSome_iff rest
    have hpar : (a :: b :: rest).length % 2 = rest.length % 2 := by
      simp only [List.length_cons]
      omega
    rw [hpar]
    cases ha : hexVal a <;> cases hb : hexVal b <;> cases hr : decodeHex rest <;>
      rw [hr] at ih <;>
      simp [decodeHex, ha, hb, hr, List.mem_cons] at ih ⊢ <;> tauto

theorem rollsLoop_eq_specWalk (fuel : Nat) (srv comb : List Nat) :
    ∀ (ps : List (Nat × Nat)) (rolls : List Nat) (i nonce : Nat),
      rolls.length % 2 = 0 →
      genPairs fuel srv comb (rolls.length / 2) nonce = some ps →
      rollsLoop fuel srv comb rolls i nonce = some (walkRes (specWalk ps (pairUp rolls) i)) := by
  intro ps
  induction ps with
  | nil =>
    intro rolls i nonce hev hg
    match rolls with
    | [] => simp [rollsLoop, pairUp, specWalk, walkRes]
    | [r] => simp at hev
    | r1 :: r2 :: rest =>
      exfalso
      have hlen : (r1 :: r2 :: rest).length / 2 = rest.length / 2 + 1 := by
        simp only [List.length_cons]
        omega
      rw [hlen] at hg
      simp only [genPairs] at hg
      rcases hr : rollDice fuel srv comb nonce with _ | ⟨d1, d2, n'⟩ <;> simp only [hr] at hg
      · exact Option.noConfusion hg
      rcases hg2 : genPairs fuel srv comb (rest.length / 2) n' with _ | ps' <;>
        simp only [hg2] at hg
      · exact Option.noConfusion hg
      · simp at hg
  | cons p ps ih =>
    intro rolls i nonce hev hg
    match rolls with
    | [] =>
      simp only [List.length_nil] at hg
      simp [genPairs] at hg
    | [r] => simp at hev
    | r1 :: r2 :: rest =>
      have hlen : (r1 :: r2 :: rest).length / 2 = rest.length / 2 + 1 := by
        simp only [List.length_cons]
        omega
      rw [hlen] at hg
      simp only [genPairs] at hg
      rcases hr : rollDice fuel srv comb nonce with _ | ⟨d1, d2, n'⟩ <;> simp only [hr] at hg
      · exact Option.noConfusion hg
      rcases hg2 : genPairs fuel srv comb (rest.length / 2) n' with _ | ps' <;>
        simp only [hg2] at hg
      · exact Option.noConfusion hg
      simp only [Option.some.injEq, List.cons.injEq] at hg
      obtain ⟨hp, hps⟩ := hg
      subst hp
      subst hps
      have hev' : rest.length % 2 = 0 := by
        simp only [List.length_cons] at hev
        omega
      by_cases hm : d1 + 48 ≠ r1 ∨ d2 + 48 ≠ r2
      · simp [rollsLoop, hr, hm, pairUp, specWalk, walkRes]
      · simp only [rollsLoop, hr, pairUp, specWalk]
        rw [if_neg hm, if_neg hm]
        exact ih rest (i + 2) n' hev' hg2

theorem verify_players_ne_two (fuel : Nat) (rep : Report) (h : rep.players.length ≠ 2) :
    Verify fuel rep = some (.error .playerCount) := by
  unfold Verify
  rcases hp : rep.players with _ | ⟨a, _ | ⟨b, _ | ⟨c, t⟩⟩⟩
  · rfl
  · rfl
  · rw [hp] at h
    simp at h
  · rfl

theorem verify_eraseSources (fuel : Nat) (rep : Report) :
    Verify fuel (eraseSources rep) = Verify fuel rep := by
  have hcs : ∀ a b : PlayerEntry,
      combinedSeed ⟨a.uid, a.clientSeed, []⟩ ⟨b.uid, b.clientSeed, []⟩ = combinedSeed a b :=
    fun a b => rfl
  rcases hp : rep.players with _ | ⟨a, _ | ⟨b, _ | ⟨c, t⟩⟩⟩ <;>
    simp [Verify, eraseSources, hp, hcs]

theorem drawDie_provenance :
    ∀ (fuel : Nat) (key pfx : List Nat) (nonce : Nat) (pool : List Nat) (idx d : Nat)
      (st : Nat × List Nat × Nat),
      drawDie key pfx fuel nonce pool idx = some (d, st) → ∃ v, v < 252 ∧ d = v % 6 + 1
  | 0, key, pfx, nonce, pool, idx, d, st => by
    intro h
    simp [drawDie] at h
  | fuel + 1, key, pfx, nonce, pool, idx, d, st => by
    intro h
    simp only [drawDie] at h
    by_cases hb : idx < pool.length
    · rw [if_pos hb] at h
      by_cases hv : pool.getD idx 0 < 252
      · rw [if_pos hv] at h
        obtain ⟨h1, _⟩ := Prod.mk.inj (Option.some.inj h)
        exact ⟨pool.getD idx 0, hv, h1.symm⟩
      · rw [if_neg hv] at h
        exact drawDie_provenance fuel key pfx nonce pool (idx + 1) d st h
    · rw [if_neg hb] at h
      exact drawDie_provenance fuel key pfx (m32 (nonce + 1)) (hmacBlock key pfx nonce) 0 d st h

/-- C1: for a structurally valid report (two players, even roll string,
hex-decodable server seed, matching commitment, decodable client seeds)
whose roll regeneration from (server seed, combined seed, nonce 0)
succeeds within the given fuel, `Verify` walks the reported roll string
two characters at a time, succeeding exactly when every reported pair
equals the regenerated pair, and otherwise failing at the first
differing pair with its zero-based character offset, the expected
(generated) pair and the actual (reported) pair. -/
theorem verify_rolls_characterization (fuel : Nat) (rep : Report) (p0 p1 : PlayerEntry)
    (srv comb : List Nat) (ps : List (Nat × Nat))
    (hp : rep.players = [p0, p1])
    (hev : rep.rolls.length % 2 = 0)
    (hsrv : decodeHex rep.serverSeed = some srv)
    (hcom : sha256Hex srv = rep.serverSeedHash)
    (hcs : combinedSeed p0 p1 = .ok comb)
    (hg : genPairs fuel srv comb (rep.rolls.length / 2) 0 = some ps) :
    Verify fuel rep = some (walkRes (specWalk ps (pairUp rep.rolls) 0)) := by
  have hodd : ¬rep.rolls.length % 2 ≠ 0 := by omega
  simp only [Verify, hp, hsrv, hcs, hcom, if_neg hodd, ne_eq, not_true_eq_false,
    if_false, ite_false, Bool.false_eq_true]
  exact rollsLoop_eq_specWalk fuel srv comb ps rep.rolls 0 0 hev hg

/-- C1 witness: the golden report, whose two rolls were regenerated
consistently, verifies. -/
theorem verify_rolls_characterization_witness : Verify 40 gReport = some (.ok ()) := by
  have h := verify_rolls_characterization 40 gReport gP0 gP1 gSrv gComb [(1, 2), (6, 5)]
    (by rfl) (by decide) (by decide) (by decide) (by decide) (by decide)
  exact h.trans (by decide)

/-- C5: the dice-stream block protocol: the block for nonce `n` is
HMAC-SHA256 keyed by the raw server seed over the combined-seed bytes
followed by the 4-byte big-endian nonce, and is 32 bytes long;
`rollDice` first forces a fresh block at the pre-roll nonce and
increments the nonce, then takes both die draws from the resulting
stream; and a draw whose cursor has exhausted the pool regenerates a
block at the current nonce, increments the nonce and resets the cursor
to 0, so a roll's draws may span a block boundary. -/
theorem dice_stream_block_protocol :
    (∀ key pfx (n : Nat), hmacBlock key pfx n = hmacSha256 key (pfx ++ be32 n) ∧
       (hmacBlock key pfx n).length = 32) ∧
    (∀ (key pfx : List Nat) (fuel nonce : Nat) (pool : List Nat) (idx : Nat),
       pool.length ≤ idx →
       drawDie key pfx (fuel + 1) nonce pool idx =
         drawDie key pfx fuel (m32 (nonce + 1)) (hmacBlock key pfx nonce) 0) ∧
    (∀ (fuel : Nat) (srv comb : List Nat) (nonce : Nat),
       rollDice fuel srv comb nonce =
         match drawDie srv comb fuel (m32 (nonce + 1)) (hmacBlock srv comb nonce) 0 with
         | none => none
         | some (d1, n1, pool1, idx1) =>
           match drawDie srv comb fuel n1 pool1 idx1 with
           | none => none
           | some (d2, n2, _, _) => some (d1, d2, n2)) := by
  refine ⟨fun key pfx n => ⟨rfl, hmacBlock_length key pfx n⟩, ?_,
    fun fuel srv comb nonce => rfl⟩
  intro key pfx fuel nonce pool idx h
  simp only [drawDie]
  rw [if_neg (Nat.not_lt.mpr h)]

/-- C5 witness: a draw at an exhausted cursor regenerates at the
current nonce and resets the cursor. -/
theorem dice_stream_block_protocol_witness :
    drawDie [1] [2] 1 0 [] 0 = drawDie [1] [2] 0 (m32 1) (hmacBlock [1] [2] 0) 0 :=
  dice_stream_block_protocol.2.1 [1] [2] 0 0 [] 0 (Nat.le_refl 0)

/-- C6: rejection sampling in `drawDie`: with the cursor in bounds a
byte below 252 is accepted and mapped to `v % 6 + 1` with the cursor
advanced, a byte in {252, 253, 254, 255} only advances the cursor,
every returned die face comes from some accepted byte `v < 252` as
`v % 6 + 1` and lies in 1..6, and exactly 42 of the 252 accepted byte
values map to each face. -/
theorem drawDie_rejection_sampling :
    (∀ (key pfx : List Nat) (fuel nonce : Nat) (pool : List Nat) (idx : Nat),
       idx < pool.length → pool.getD idx 0 < 252 →
       drawDie key pfx (fuel + 1) nonce pool idx =
         some (pool.getD idx 0 % 6 + 1, nonce, pool, idx + 1)) ∧
    (∀ (key pfx : List Nat) (fuel nonce : Nat) (pool : List Nat) (idx : Nat),
       idx < pool.length → 252 ≤ pool.getD idx 0 →
       drawDie key pfx (fuel + 1) nonce pool idx = drawDie key pfx fuel nonce pool (idx + 1)) ∧
    (∀ (fuel : Nat) (key pfx : List Nat) (nonce : Nat) (pool : List Nat) (idx d : Nat)
       (st : Nat × List Nat × Nat),
       drawDie key pfx fuel nonce pool idx = some (d, st) →
       (∃ v, v < 252 ∧ d = v % 6 + 1) ∧ 1 ≤ d ∧ d ≤ 6) ∧
    (∀ f ∈ Finset.Icc (1 : Nat) 6,
       ((Finset.range 256).filter fun v => v < 252 ∧ v % 6 + 1 = f).card = 42) := by
  refine ⟨?_, ?_, ?_, by decide⟩
  · intro key pfx fuel nonce pool idx hb hv
    simp only [drawDie]
    rw [if_pos hb, if_pos hv]
  · intro key pfx fuel nonce pool idx hb hv
    simp only [drawDie]
    rw [if_pos hb, if_neg (Nat.not_lt.mpr hv)]
  · intro fuel key pfx nonce pool idx d st h
    obtain ⟨v, hv, hd⟩ := drawDie_provenance fuel key pfx nonce pool idx d st h
    refine ⟨⟨v, hv, hd⟩, by omega, by omega⟩

/-- C6 witness: an in-bounds byte 10 is accepted as face 5 with the
cursor advanced. -/
theorem drawDie_rejection_sampling_witness :
    drawDie [0] [0] 1 7 [10, 255] 0 = some (10 % 6 + 1, 7, [10, 255], 1) :=
  drawDie_rejection_sampling.1 [0] [0] 0 7 [10, 255] 0 (by decide) (by decide)

/-- C2 counterexample: for UIDs 9 and 10 the code places the seed bytes
of the player whose UID string "10" is lexicographically smaller first,
while the spec's numeric swap rule would place UID 9's bytes first: the
two definitions disagree on the mixing buffer and on the combined
seed, so the code's swap decision is not numeric. -/
theorem combinedSeed_numeric_swap_counterexample :
    combinedSeedMsg ⟨9, asciiBytes "00", []⟩ ⟨10, asciiBytes "11", []⟩ =
      some (asciiBytes "10:9:" ++ [17, 58, 0]) ∧
    combinedSeedSpecMsg ⟨9, asciiBytes "00", []⟩ ⟨10, asciiBytes "11", []⟩ =
      some (asciiBytes "10:9:" ++ [0, 58, 17]) ∧
    combinedSeed ⟨9, asciiBytes "00", []⟩ ⟨10, asciiBytes "11", []⟩ ≠
      combinedSeedSpec ⟨9, asciiBytes "00", []⟩ ⟨10, asciiBytes "11", []⟩ :=
  ⟨by decide, by decide, by decide⟩

/-- C2 amended: both ordering decisions in `combinedSeed` use
lexicographic comparison of the decimal UID strings and always agree:
the mixing buffer carries the header and the seed bytes of the
lexicographically smaller UID string first (either reading when the
strings are equal). -/
theorem combinedSeed_orderings_lexicographic (a b : PlayerEntry) :
    combinedSeedMsg a b =
      if bytesLt (intToDec b.uid) (intToDec a.uid) then
        mixMsg (intToDec b.uid) (intToDec a.uid) b.clientSeed a.clientSeed
      else mixMsg (intToDec a.uid) (intToDec b.uid) a.clientSeed b.clientSeed :=
  combinedSeedMsg_canonAux a b

/-- C3 counterexample: two entries sharing UID 1 but holding different
client seeds mix to different combined seeds when swapped, so
`combinedSeed` is not symmetric for all entry pairs. -/
theorem combinedSeed_symm_counterexample :
    combinedSeed ⟨1, asciiBytes "00", []⟩ ⟨1, asciiBytes "01", []⟩ ≠
      combinedSeed ⟨1, asciiBytes "01", []⟩ ⟨1, asciiBytes "00", []⟩ := by decide

/-- C3 amended: `combinedSeed` is symmetric whenever the two entries'
UIDs differ (distinct UIDs render to distinct decimal strings), and for
a report whose two players have distinct UIDs, swapping the players
array leaves the `Verify` outcome unchanged. -/
theorem combinedSeed_order_independence :
    (∀ a b : PlayerEntry, a.uid ≠ b.uid → combinedSeed a b = combinedSeed b a) ∧
    (∀ (fuel : Nat) (rep : Report) (p0 p1 : PlayerEntry),
       rep.players = [p0, p1] → p0.uid ≠ p1.uid →
       Verify fuel { rep with players := [p1, p0] } = Verify fuel rep) := by
  refine ⟨combinedSeed_symm, ?_⟩
  intro fuel rep p0 p1 hp hne
  simp only [Verify, hp]
  rw [combinedSeed_symm p1 p0 (Ne.symm hne)]

/-- C3 witness: swapping two distinct-UID entries preserves the
combined seed. -/
theorem combinedSeed_order_independence_witness :
    combinedSeed ⟨1, asciiBytes "00", []⟩ ⟨2, asciiBytes "01", []⟩ =
      combinedSeed ⟨2, asciiBytes "01", []⟩ ⟨1, asciiBytes "00", []⟩ :=
  combinedSeed_order_independence.1 ⟨1, asciiBytes "00", []⟩ ⟨2, asciiBytes "01", []⟩ (by decide)

/-- C4 counterexample: a verifying report whose server seed field is
the hex string "aa"; flipping one bit of its second character
(0x61 xor 0x41 = 0x20, a single bit) gives "aA", which decodes to the
same byte, so `Verify` still succeeds rather than failing with the
commitment mismatch. -/
theorem verify_bitflip_counterexample :
    Verify 1 ⟨[], asciiBytes "aa", sha256Hex [170], [], [⟨1, [], []⟩, ⟨2, [], []⟩]⟩ =
      some (.ok ()) ∧
    asciiBytes "aa" = [97, 97] ∧ asciiBytes "aA" = [97, 65] ∧ (97 : Nat) ^^^ 65 = 2 ^ 5 ∧
    Verify 1 ⟨[], asciiBytes "aA", sha256Hex [170], [], [⟨1, [], []⟩, ⟨2, [], []⟩]⟩ =
      some (.ok ()) :=
  ⟨by decide, by decide, by decide, by decide, by decide⟩

/-- C4 amended: replacing the server seed field of a two-player,
even-rolls report by a string that fails hex decoding yields the
encoding error, and by a string decoding to bytes whose SHA-256 hex
differs from the recorded commitment (as any decoded-byte-changing
single-bit flip does, barring a SHA-256 collision) yields the
commitment-mismatch error. -/
theorem verify_commitment_enforcement (fuel : Nat) (rep : Report) (p0 p1 : PlayerEntry)
    (s' : List Nat) (hp : rep.players = [p0, p1]) (hev : rep.rolls.length % 2 = 0) :
    (decodeHex s' = none →
      Verify fuel { rep with serverSeed := s' } = some (.error (.notHex nmServerSeed))) ∧
    (∀ b', decodeHex s' = some b' → sha256Hex b' ≠ rep.serverSeedHash →
      Verify fuel { rep with serverSeed := s' } = some (.error .hashMismatch)) := by
  have hodd : ¬rep.rolls.length % 2 ≠ 0 := by omega
  constructor
  · intro hs
    simp [Verify, hp, hs, hodd]
  · intro b' hs hneq
    simp [Verify, hp, hs, hodd, hneq]

/-- C4 witness: replacing the committed seed "aa" by "bb" makes the
recomputed hash differ, and `Verify` reports the commitment error. -/
theorem verify_commitment_enforcement_witness :
    Verify 1 ⟨[], asciiBytes "bb", sha256Hex [170], [], [⟨1, [], []⟩, ⟨2, [], []⟩]⟩ =
      some (.error .hashMismatch) :=
  (verify_commitment_enforcement 1
    ⟨[], asciiBytes "aa", sha256Hex [170], [], [⟨1, [], []⟩, ⟨2, [], []⟩]⟩
    ⟨1, [], []⟩ ⟨2, [], []⟩ (asciiBytes "bb") (by rfl) (by decide)).2
    [187] (by decide) (by decide)

/-- C7: error taxonomy and first-violation order of `Verify`: a player
count other than 2 fails first; then an odd roll-string length; then a
non-hex server seed; then a commitment mismatch; then a non-hex client
seed; and only once all those pass does the roll comparison run, with
no continuation after any error. -/
theorem verify_error_order (fuel : Nat) (rep : Report) :
    (rep.players.length ≠ 2 → Verify fuel rep = some (.error .playerCount)) ∧
    (∀ p0 p1, rep.players = [p0, p1] →
      (rep.rolls.length % 2 ≠ 0 → Verify fuel rep = some (.error .oddRolls)) ∧
      (rep.rolls.length % 2 = 0 →
        (decodeHex rep.serverSeed = none →
          Verify fuel rep = some (.error (.notHex nmServerSeed))) ∧
        (∀ srv, decodeHex rep.serverSeed = some srv →
          (sha256Hex srv ≠ rep.serverSeedHash →
            Verify fuel rep = some (.error .hashMismatch)) ∧
          (sha256Hex srv = rep.serverSeedHash →
            ((decodeHex p0.clientSeed = none ∨ decodeHex p1.clientSeed = none) →
              Verify fuel rep = some (.error (.notHex nmClientSeed))) ∧
            (∀ comb, combinedSeed p0 p1 = .ok comb →
              Verify fuel rep = rollsLoop fuel srv comb rep.rolls 0 0))))) := by
  refine ⟨verify_players_ne_two fuel rep, ?_⟩
  intro p0 p1 hp
  constructor
  · intro hodd
    simp [Verify, hp, hodd]
  intro hev
  have hodd : ¬rep.rolls.length % 2 ≠ 0 := by omega
  constructor
  · intro hs
    simp [Verify, hp, hs, hodd]
  intro srv hs
  constructor
  · intro hneq
    simp [Verify, hp, hs, hodd, hneq]
  intro hcom
  constructor
  · intro hcs
    have hmsg : combinedSeedMsg p0 p1 = none := (combinedSeedMsg_none_iff p0 p1).mpr hcs
    simp [Verify, hp, hs, hodd, hcom, combinedSeed, hmsg]
  · intro comb hcs
    simp [Verify, hp, hs, hodd, hcom, hcs]

/-- C7 witness: an empty players array fails with the player-count
error. -/
theorem verify_error_order_witness :
    Verify 1 ⟨[], [], [], [], []⟩ = some (.error .playerCount) :=
  (verify_error_order 1 ⟨[], [], [], [], []⟩).1 (by decide)

/-- C8: provenance noninterference: two reports identical except in
their players' `source` fields (i.e. equal once sources are erased)
receive the same `Verify` outcome, error kind and diagnostics
included. -/
theorem verify_source_noninterference (fuel : Nat) (r1 r2 : Report)
    (h : eraseSources r1 = eraseSources r2) : Verify fuel r1 = Verify fuel r2 := by
  rw [← verify_eraseSources fuel r1, h, verify_eraseSources]

/-- C8 witness: flipping a provenance tag from "player" to "fallback"
leaves the outcome unchanged. -/
theorem verify_source_noninterference_witness :
    Verify 1 ⟨[], [], [], [], [⟨1, [], asciiBytes "player"⟩]⟩ =
      Verify 1 ⟨[], [], [], [], [⟨1, [], asciiBytes "fallback"⟩]⟩ :=
  verify_source_noninterference 1 _ _ (by decide)

/-- C10: seed lengths are never enforced: `decodeHex` succeeds exactly
on even-length strings of hex characters (uppercase allowed, any
length, the empty string included), and a two-player even-rolls report
whose fields decode and whose commitment matches proceeds straight to
the roll comparison whatever the decoded seed lengths are. -/
theorem seed_length_unchecked :
    (∀ s : List Nat, (decodeHex s).isSome ↔
       (s.length % 2 = 0 ∧ ∀ c ∈ s, (hexVal c).isSome)) ∧
    (∀ (fuel : Nat) (rep : Report) (p0 p1 : PlayerEntry) (srv comb : List Nat),
       rep.players = [p0, p1] → rep.rolls.length % 2 = 0 →
       decodeHex rep.serverSeed = some srv → sha256Hex srv = rep.serverSeedHash →
       combinedSeed p0 p1 = .ok comb →
       Verify fuel rep = rollsLoop fuel srv comb rep.rolls 0 0) := by
  refine ⟨decodeHex_isSome_iff, ?_⟩
  intro fuel rep p0 p1 srv comb hp hev hs hcom hcs
  have hodd : ¬rep.rolls.length % 2 ≠ 0 := by omega
  simp [Verify, hp, hs, hodd, hcom, hcs]

/-- C10 witness: an empty server seed together with an uppercase
one-byte client seed and an empty client seed all decode, and the
report verifies: no 16-byte format is enforced anywhere. -/
theorem seed_length_unchecked_witness :
    Verify 1 ⟨[], [], sha256Hex [], [], [⟨1, asciiBytes "AB", []⟩, ⟨2, [], []⟩]⟩ =
      some (.ok ()) := by
  have h := seed_length_unchecked.2 1
    ⟨[], [], sha256Hex [], [], [⟨1, asciiBytes "AB", []⟩, ⟨2, [], []⟩]⟩
    ⟨1, asciiBytes "AB", []⟩ ⟨2, [], []⟩ [] (sha256 [49, 58, 50, 58, 171, 58])
    (by rfl) (by decide) (by decide) (by decide) (by decide)
  exact h.trans (by decide)

end Backgammon
